import Mathlib

/-!
Shallow embedding of the glm-rs GLSL mathematics library (scalar layer,
vector and matrix families, and the builtin functions touched by the
verified claims).  Float scalars (`f32` / `f64`) are modelled by `ℚ`,
the exact idealization of the float arithmetic used in the source; the
machine epsilon of each float kind is kept as an explicit parameter
`eps` where the source calls `is_approx_eq` (i.e. `epsilon()`), with
the concrete constants `epsilonF32` / `epsilonF64` provided.
-/

namespace Glm

/-- Machine epsilon of `f32` (`f32::EPSILON = 2⁻²³`). -/
def epsilonF32 : ℚ := 1 / 2 ^ 23

/-- Machine epsilon of `f64` (`f64::EPSILON = 2⁻⁵²`). -/
def epsilonF64 : ℚ := 1 / 2 ^ 52

/-- Model of Rust `Float::min` (`BaseNum::min` for the float kinds). -/
def fminQ (x y : ℚ) : ℚ := if x < y then x else y

/-- Model of Rust `Float::max` (`BaseNum::max` for the float kinds). -/
def fmaxQ (x y : ℚ) : ℚ := if x < y then y else x

/-- Model of `ApproxEq::is_close_to` for float scalars:
`(self - *rhs).abs() <= max_diff` (src/basenum.rs). -/
def isCloseTo (x y maxDiff : ℚ) : Bool := decide (|x - y| ≤ maxDiff)

/-- Model of `ApproxEq::is_approx_eq`, which calls `is_close_to` with the
machine epsilon of the scalar kind; the epsilon is the first argument. -/
def isApproxEq (eps x y : ℚ) : Bool := isCloseTo x y eps

/-- Specialization of `isApproxEq` to the `f32` machine epsilon. -/
def isApproxEqF32 (x y : ℚ) : Bool := isCloseTo x y epsilonF32

/-- Specialization of `isApproxEq` to the `f64` machine epsilon. -/
def isApproxEqF64 (x y : ℚ) : Bool := isCloseTo x y epsilonF64

/-- Model of `SignedNum::sign` for float scalars (src/basenum.rs):
`if self.is_zero() { 0 } else { self.signum() }`.  Rust `signum` on a
nonzero non-NaN float is `1.0` when positive and `-1.0` when negative. -/
def signQ (x : ℚ) : ℚ := if x = 0 then 0 else if 0 < x then 1 else -1

/-- Model of Rust `Float::trunc`: rounding toward zero. -/
def truncQ (x : ℚ) : ℤ := if 0 ≤ x then ⌊x⌋ else ⌈x⌉

/-- Model of Rust `Float::fract`: `self - self.trunc()`. -/
def fractQ (x : ℚ) : ℚ := x - truncQ x

/-- Model of Rust `Float::round`: rounding half away from zero. -/
def roundRustQ (x : ℚ) : ℚ := if 0 ≤ x then (⌊x + 1 / 2⌋ : ℤ) else (⌈x - 1 / 2⌉ : ℤ)

/-- Model of Rust `Rem` on floats: `x - (x / y).trunc() * y` (the remainder
has the sign of the dividend). -/
def fmodQ (x y : ℚ) : ℚ := x - (truncQ (x / y) : ℚ) * y

/-- Model of the scalar kernel of the builtin `roundEven`
(src/builtin/common.rs): ties (fractional part of absolute value exactly
`0.5`) go to the nearest even integer, other values use `round`. -/
def roundEvenQ (f : ℚ) : ℚ :=
  let int : ℚ := (truncQ f : ℤ)
  if |fractQ f| ≠ 1 / 2 then roundRustQ f
  else if fmodQ int 2 = 0 then int
  else if int < 0 then int - 1
  else int + 1

/-- Model of the builtin `clamp` on scalars (src/builtin/common.rs):
`min(max(x, min_val), max_val)`. -/
def clampQ (x minVal maxVal : ℚ) : ℚ := fminQ (fmaxQ x minVal) maxVal

/-- Model of the builtin `mix` on scalars (src/builtin/common.rs):
`x * (1 - a) + y * a`. -/
def mixQ (x y a : ℚ) : ℚ := x * (1 - a) + y * a

/-- Model of the `Vector2` type (src/vec/vec.rs), generic in the scalar. -/
@[ext]
structure Vector2 (α : Type) where
  x : α
  y : α
deriving DecidableEq, Repr

/-- Model of the `Vector3` type (src/vec/vec.rs), generic in the scalar. -/
@[ext]
structure Vector3 (α : Type) where
  x : α
  y : α
  z : α
deriving DecidableEq, Repr

/-- Model of the `Vector4` type (src/vec/vec.rs), generic in the scalar. -/
@[ext]
structure Vector4 (α : Type) where
  x : α
  y : α
  z : α
  w : α
deriving DecidableEq, Repr

/-- Constructor `vec2` over the rational float model. -/
def vec2 (x y : ℚ) : Vector2 ℚ := ⟨x, y⟩

/-- Constructor `vec3` over the rational float model. -/
def vec3 (x y z : ℚ) : Vector3 ℚ := ⟨x, y, z⟩

/-- Constructor `vec4` over the rational float model. -/
def vec4 (x y z w : ℚ) : Vector4 ℚ := ⟨x, y, z, w⟩

/-- Component-wise (Hadamard) product of two `Vector2`, the `Mul` impl. -/
def Vector2.mulC (a b : Vector2 ℚ) : Vector2 ℚ := ⟨a.x * b.x, a.y * b.y⟩

/-- Component-wise product of two `Vector3`, the `Mul` impl. -/
def Vector3.mulC (a b : Vector3 ℚ) : Vector3 ℚ := ⟨a.x * b.x, a.y * b.y, a.z * b.z⟩

/-- Component-wise product of two `Vector4`, the `Mul` impl. -/
def Vector4.mulC (a b : Vector4 ℚ) : Vector4 ℚ :=
  ⟨a.x * b.x, a.y * b.y, a.z * b.z, a.w * b.w⟩

/-- Left-fold sum of the components of a `Vector2` (`GenNumVec::sum`). -/
def Vector2.sum (a : Vector2 ℚ) : ℚ := a.x + a.y

/-- Left-fold sum of the components of a `Vector3` (`GenNumVec::sum`). -/
def Vector3.sum (a : Vector3 ℚ) : ℚ := a.x + a.y + a.z

/-- Left-fold sum of the components of a `Vector4` (`GenNumVec::sum`). -/
def Vector4.sum (a : Vector4 ℚ) : ℚ := a.x + a.y + a.z + a.w

/-- Component-wise addition of two `Vector3`, the `Add` impl. -/
def Vector3.add (a b : Vector3 ℚ) : Vector3 ℚ := ⟨a.x + b.x, a.y + b.y, a.z + b.z⟩

/-- Scalar broadcast multiplication `v * s` for `Vector3`. -/
def Vector3.mulS (a : Vector3 ℚ) (s : ℚ) : Vector3 ℚ := ⟨a.x * s, a.y * s, a.z * s⟩

/-- Scalar broadcast division `v / s` for `Vector3`. -/
def Vector3.divS (a : Vector3 ℚ) (s : ℚ) : Vector3 ℚ := ⟨a.x / s, a.y / s, a.z / s⟩

/-- Scalar broadcast multiplication `v * s` for `Vector4`. -/
def Vector4.mulS (a : Vector4 ℚ) (s : ℚ) : Vector4 ℚ :=
  ⟨a.x * s, a.y * s, a.z * s, a.w * s⟩

/-- Component-wise map over a `Vector3` (`GenNum::map`). -/
def Vector3.map (a : Vector3 ℚ) (f : ℚ → ℚ) : Vector3 ℚ := ⟨f a.x, f a.y, f a.z⟩

/-- Component-wise map over a `Vector4` (`GenNum::map`). -/
def Vector4.map (a : Vector4 ℚ) (f : ℚ → ℚ) : Vector4 ℚ := ⟨f a.x, f a.y, f a.z, f a.w⟩

/-- Model of the builtin `sign` on `Vector3` (`x.map(SignedNum::sign)`). -/
def signV3 (v : Vector3 ℚ) : Vector3 ℚ := v.map signQ

/-- Model of the builtin `roundEven` on `Vector3` (component-wise map). -/
def roundEvenV3 (v : Vector3 ℚ) : Vector3 ℚ := v.map roundEvenQ

/-- Model of the builtin `min` on `Vector3` (`x.zip(y, BaseNum::min)`). -/
def minV3 (a b : Vector3 ℚ) : Vector3 ℚ := ⟨fminQ a.x b.x, fminQ a.y b.y, fminQ a.z b.z⟩

/-- Model of the builtin `max` on `Vector3` (`x.zip(y, BaseNum::max)`). -/
def maxV3 (a b : Vector3 ℚ) : Vector3 ℚ := ⟨fmaxQ a.x b.x, fmaxQ a.y b.y, fmaxQ a.z b.z⟩

/-- Model of the builtin `clamp` on `Vector3`: `min(max(x, lo), hi)`. -/
def clampV3 (v lo hi : Vector3 ℚ) : Vector3 ℚ := minV3 (maxV3 v lo) hi

/-- Model of the builtin `max_s` on `Vector4` (scalar comparator). -/
def maxS4 (v : Vector4 ℚ) (s : ℚ) : Vector4 ℚ := v.map (fun c => fmaxQ c s)

/-- Model of the builtin `min_s` on `Vector4` (scalar comparator). -/
def minS4 (v : Vector4 ℚ) (s : ℚ) : Vector4 ℚ := v.map (fun c => fminQ c s)

/-- Model of the builtin `clamp_s` on `Vector4`:
`min_s(max_s(x, min_val), max_val)`. -/
def clampS4 (v : Vector4 ℚ) (lo hi : ℚ) : Vector4 ℚ := minS4 (maxS4 v lo) hi

/-- Model of the builtin `round` on `Vector4` (`x.map(Float::round)`). -/
def roundV4 (v : Vector4 ℚ) : Vector4 ℚ := v.map roundRustQ

/-- Model of the builtin `dot` on `Vector2`: `(x * y).sum()`. -/
def dot2 (a b : Vector2 ℚ) : ℚ := (a.mulC b).sum

/-- Model of the builtin `dot` on `Vector3`: `(x * y).sum()`. -/
def dot3 (a b : Vector3 ℚ) : ℚ := (a.mulC b).sum

/-- Model of the builtin `cross` (src/builtin/geom.rs). -/
def cross3 (a b : Vector3 ℚ) : Vector3 ℚ :=
  ⟨a.y * b.z - b.y * a.z, a.z * b.x - b.z * a.x, a.x * b.y - b.x * a.y⟩

/-- Model of `Vector4::truncate` (src/vec/vec.rs): removes the `i`-th
component; the out-of-range panic is ruled out by the `Fin 4` domain. -/
def Vector4.truncate {α : Type} (v : Vector4 α) (i : Fin 4) : Vector3 α :=
  match i with
  | 0 => ⟨v.y, v.z, v.w⟩
  | 1 => ⟨v.x, v.z, v.w⟩
  | 2 => ⟨v.x, v.y, v.w⟩
  | 3 => ⟨v.x, v.y, v.z⟩

/-- Model of the `Matrix2` type: two `Vector2` columns (src/mat/mat.rs). -/
@[ext]
structure Matrix2 (α : Type) where
  c0 : Vector2 α
  c1 : Vector2 α
deriving DecidableEq, Repr

/-- Model of the `Matrix3x2` type: three `Vector2` columns. -/
@[ext]
structure Matrix3x2 (α : Type) where
  c0 : Vector2 α
  c1 : Vector2 α
  c2 : Vector2 α
deriving DecidableEq, Repr

/-- Model of the `Matrix4x2` type: four `Vector2` columns. -/
@[ext]
structure Matrix4x2 (α : Type) where
  c0 : Vector2 α
  c1 : Vector2 α
  c2 : Vector2 α
  c3 : Vector2 α
deriving DecidableEq, Repr

/-- Model of the `Matrix2x3` type: two `Vector3` columns. -/
@[ext]
structure Matrix2x3 (α : Type) where
  c0 : Vector3 α
  c1 : Vector3 α
deriving DecidableEq, Repr

/-- Model of the `Matrix3` type: three `Vector3` columns. -/
@[ext]
structure Matrix3 (α : Type) where
  c0 : Vector3 α
  c1 : Vector3 α
  c2 : Vector3 α
deriving DecidableEq, Repr

/-- Model of the `Matrix4x3` type: four `Vector3` columns. -/
@[ext]
structure Matrix4x3 (α : Type) where
  c0 : Vector3 α
  c1 : Vector3 α
  c2 : Vector3 α
  c3 : Vector3 α
deriving DecidableEq, Repr

/-- Model of the `Matrix2x4` type: two `Vector4` columns. -/
@[ext]
structure Matrix2x4 (α : Type) where
  c0 : Vector4 α
  c1 : Vector4 α
deriving DecidableEq, Repr

/-- Model of the `Matrix3x4` type: three `Vector4` columns. -/
@[ext]
structure Matrix3x4 (α : Type) where
  c0 : Vector4 α
  c1 : Vector4 α
  c2 : Vector4 α
deriving DecidableEq, Repr

/-- Model of the `Matrix4` type: four `Vector4` columns. -/
@[ext]
structure Matrix4 (α : Type) where
  c0 : Vector4 α
  c1 : Vector4 α
  c2 : Vector4 α
  c3 : Vector4 α
deriving DecidableEq, Repr

/-- Transpose of `Matrix2` (`transpose_unrolled!` for `Vector2, Vector2`).
Source entry `$m[i][j]` is column `i`, component `j`. -/
def Matrix2.transpose {α : Type} (m : Matrix2 α) : Matrix2 α :=
  ⟨⟨m.c0.x, m.c1.x⟩, ⟨m.c0.y, m.c1.y⟩⟩

/-- Transpose of `Matrix3x2` (`transpose_unrolled!` for `Vector2, Vector3`). -/
def Matrix3x2.transpose {α : Type} (m : Matrix3x2 α) : Matrix2x3 α :=
  ⟨⟨m.c0.x, m.c1.x, m.c2.x⟩, ⟨m.c0.y, m.c1.y, m.c2.y⟩⟩

/-- Transpose of `Matrix4x2` (`transpose_unrolled!` for `Vector2, Vector4`). -/
def Matrix4x2.transpose {α : Type} (m : Matrix4x2 α) : Matrix2x4 α :=
  ⟨⟨m.c0.x, m.c1.x, m.c2.x, m.c3.x⟩, ⟨m.c0.y, m.c1.y, m.c2.y, m.c3.y⟩⟩

/-- Transpose of `Matrix2x3` (`transpose_unrolled!` for `Vector3, Vector2`). -/
def Matrix2x3.transpose {α : Type} (m : Matrix2x3 α) : Matrix3x2 α :=
  ⟨⟨m.c0.x, m.c1.x⟩, ⟨m.c0.y, m.c1.y⟩, ⟨m.c0.z, m.c1.z⟩⟩

/-- Transpose of `Matrix3` (`transpose_unrolled!` for `Vector3, Vector3`). -/
def Matrix3.transpose {α : Type} (m : Matrix3 α) : Matrix3 α :=
  ⟨⟨m.c0.x, m.c1.x, m.c2.x⟩, ⟨m.c0.y, m.c1.y, m.c2.y⟩, ⟨m.c0.z, m.c1.z, m.c2.z⟩⟩

/-- Transpose of `Matrix4x3` (`transpose_unrolled!` for `Vector3, Vector4`). -/
def Matrix4x3.transpose {α : Type} (m : Matrix4x3 α) : Matrix3x4 α :=
  ⟨⟨m.c0.x, m.c1.x, m.c2.x, m.c3.x⟩,
   ⟨m.c0.y, m.c1.y, m.c2.y, m.c3.y⟩,
   ⟨m.c0.z, m.c1.z, m.c2.z, m.c3.z⟩⟩

/-- Transpose of `Matrix2x4` (`transpose_unrolled!` for `Vector4, Vector2`). -/
def Matrix2x4.transpose {α : Type} (m : Matrix2x4 α) : Matrix4x2 α :=
  ⟨⟨m.c0.x, m.c1.x⟩, ⟨m.c0.y, m.c1.y⟩, ⟨m.c0.z, m.c1.z⟩, ⟨m.c0.w, m.c1.w⟩⟩

/-- Transpose of `Matrix3x4` (`transpose_unrolled!` for `Vector4, Vector3`). -/
def Matrix3x4.transpose {α : Type} (m : Matrix3x4 α) : Matrix4x3 α :=
  ⟨⟨m.c0.x, m.c1.x, m.c2.x⟩,
   ⟨m.c0.y, m.c1.y, m.c2.y⟩,
   ⟨m.c0.z, m.c1.z, m.c2.z⟩,
   ⟨m.c0.w, m.c1.w, m.c2.w⟩⟩

/-- Transpose of `Matrix4` (`transpose_unrolled!` for `Vector4, Vector4`). -/
def Matrix4.transpose {α : Type} (m : Matrix4 α) : Matrix4 α :=
  ⟨⟨m.c0.x, m.c1.x, m.c2.x, m.c3.x⟩,
   ⟨m.c0.y, m.c1.y, m.c2.y, m.c3.y⟩,
   ⟨m.c0.z, m.c1.z, m.c2.z, m.c3.z⟩,
   ⟨m.c0.w, m.c1.w, m.c2.w, m.c3.w⟩⟩

/-- Constructor function `mat2` (src/mat/ctor.rs): arguments in column-major
order, `c0 = (m11, m21)`, `c1 = (m12, m22)`. -/
def mat2 (m11 m21 m12 m22 : ℚ) : Matrix2 ℚ := ⟨⟨m11, m21⟩, ⟨m12, m22⟩⟩

/-- Constructor function `mat3x2` (src/mat/ctor.rs), column-major. -/
def mat3x2 (m11 m21 m12 m22 m13 m23 : ℚ) : Matrix3x2 ℚ :=
  ⟨⟨m11, m21⟩, ⟨m12, m22⟩, ⟨m13, m23⟩⟩

/-- Matrix-vector product for `Matrix3x2` (`mul_v_unrolled!` for
`Vector2, Vector3`): the unrolled column linear combination. -/
def Matrix3x2.mulV (m : Matrix3x2 ℚ) (v : Vector3 ℚ) : Vector2 ℚ :=
  ⟨m.c0.x * v.x + m.c1.x * v.y + m.c2.x * v.z,
   m.c0.y * v.x + m.c1.y * v.y + m.c2.y * v.z⟩

/-- Matrix-vector product for `Matrix4` (`mul_v_unrolled!` for
`Vector4, Vector4`). -/
def Matrix4.mulV (m : Matrix4 ℚ) (v : Vector4 ℚ) : Vector4 ℚ :=
  ⟨m.c0.x * v.x + m.c1.x * v.y + m.c2.x * v.z + m.c3.x * v.w,
   m.c0.y * v.x + m.c1.y * v.y + m.c2.y * v.z + m.c3.y * v.w,
   m.c0.z * v.x + m.c1.z * v.y + m.c2.z * v.z + m.c3.z * v.w,
   m.c0.w * v.x + m.c1.w * v.y + m.c2.w * v.z + m.c3.w * v.w⟩

/-- Determinant of `Matrix2` (src/mat/sqmat.rs):
`self[0][0] * self[1][1] - self[0][1] * self[1][0]`. -/
def Matrix2.determinant (m : Matrix2 ℚ) : ℚ :=
  m.c0.x * m.c1.y - m.c0.y * m.c1.x

/-- Determinant of `Matrix3` (src/mat/sqmat.rs), the triple product rule. -/
def Matrix3.determinant (m : Matrix3 ℚ) : ℚ :=
  m.c0.x * (m.c1.y * m.c2.z - m.c2.y * m.c1.z) -
  m.c1.x * (m.c0.y * m.c2.z - m.c2.y * m.c0.z) +
  m.c2.x * (m.c0.y * m.c1.z - m.c1.y * m.c0.z)

/-- Determinant of `Matrix4` (src/mat/sqmat.rs), the full cofactor sum. -/
def Matrix4.determinant (m : Matrix4 ℚ) : ℚ :=
  m.c0.x * (
    m.c1.y * m.c2.z * m.c3.w +
    m.c2.y * m.c3.z * m.c1.w +
    m.c3.y * m.c1.z * m.c2.w -
    m.c3.y * m.c2.z * m.c1.w -
    m.c1.y * m.c3.z * m.c2.w -
    m.c2.y * m.c1.z * m.c3.w
  ) -
  m.c1.x * (
    m.c0.y * m.c2.z * m.c3.w +
    m.c2.y * m.c3.z * m.c0.w +
    m.c3.y * m.c0.z * m.c2.w -
    m.c3.y * m.c2.z * m.c0.w -
    m.c0.y * m.c3.z * m.c2.w -
    m.c2.y * m.c0.z * m.c3.w
  ) +
  m.c2.x * (
    m.c0.y * m.c1.z * m.c3.w +
    m.c1.y * m.c3.z * m.c0.w +
    m.c3.y * m.c0.z * m.c1.w -
    m.c3.y * m.c1.z * m.c0.w -
    m.c0.y * m.c3.z * m.c1.w -
    m.c1.y * m.c0.z * m.c3.w
  ) -
  m.c3.x * (
    m.c0.y * m.c1.z * m.c2.w +
    m.c1.y * m.c2.z * m.c0.w +
    m.c2.y * m.c0.z * m.c1.w -
    m.c2.y * m.c1.z * m.c0.w -
    m.c0.y * m.c2.z * m.c1.w -
    m.c1.y * m.c0.z * m.c2.w
  )

/-- Trait method `GenSquareMat::inverse` for `Matrix2` (src/mat/sqmat.rs):
`None` when the determinant `is_approx_eq` zero (epsilon `eps`), otherwise
the adjugate formula scaled by `det.recip()`. -/
def Matrix2.inverse (eps : ℚ) (m : Matrix2 ℚ) : Option (Matrix2 ℚ) :=
  let det := m.determinant
  if isApproxEq eps det 0 then none
  else
    let invDet := det⁻¹
    some ⟨⟨m.c1.y * invDet, -m.c0.y * invDet⟩,
          ⟨-m.c1.x * invDet, m.c0.x * invDet⟩⟩

/-- Trait method `GenSquareMat::inverse` for `Matrix3` (src/mat/sqmat.rs). -/
def Matrix3.inverse (eps : ℚ) (m : Matrix3 ℚ) : Option (Matrix3 ℚ) :=
  let det := m.determinant
  if isApproxEq eps det 0 then none
  else
    let invDet := det⁻¹
    let r11 := m.c1.y * m.c2.z - m.c2.y * m.c1.z
    let r12 := m.c2.x * m.c1.z - m.c1.x * m.c2.z
    let r13 := m.c1.x * m.c2.y - m.c2.x * m.c1.y
    let r21 := m.c2.y * m.c0.z - m.c0.y * m.c2.z
    let r22 := m.c0.x * m.c2.z - m.c2.x * m.c0.z
    let r23 := m.c2.x * m.c0.y - m.c0.x * m.c2.y
    let r31 := m.c0.y * m.c1.z - m.c1.y * m.c0.z
    let r32 := m.c1.x * m.c0.z - m.c0.x * m.c1.z
    let r33 := m.c0.x * m.c1.y - m.c1.x * m.c0.y
    some ⟨⟨r11 * invDet, r21 * invDet, r31 * invDet⟩,
          ⟨r12 * invDet, r22 * invDet, r32 * invDet⟩,
          ⟨r13 * invDet, r23 * invDet, r33 * invDet⟩⟩

/-- Cofactor helper of the `Matrix4` inverse (the closure `cf` in
src/mat/sqmat.rs), taking the transpose matrix and `1 / det`. -/
def matrix4Cofactor (tr : Matrix4 ℚ) (invDet : ℚ) (i j : Fin 4) : ℚ :=
  let mat : Matrix3 ℚ :=
    match i with
    | 0 => ⟨tr.c1.truncate j, tr.c2.truncate j, tr.c3.truncate j⟩
    | 1 => ⟨tr.c0.truncate j, tr.c2.truncate j, tr.c3.truncate j⟩
    | 2 => ⟨tr.c0.truncate j, tr.c1.truncate j, tr.c3.truncate j⟩
    | 3 => ⟨tr.c0.truncate j, tr.c1.truncate j, tr.c2.truncate j⟩
  let d := mat.determinant * invDet
  if (i.val + j.val) % 2 = 1 then -d else d

/-- Trait method `GenSquareMat::inverse` for `Matrix4` (src/mat/sqmat.rs):
transpose-and-cofactor construction over 3x3 minors. -/
def Matrix4.inverse (eps : ℚ) (m : Matrix4 ℚ) : Option (Matrix4 ℚ) :=
  let det := m.determinant
  if isApproxEq eps det 0 then none
  else
    let invDet := det⁻¹
    let tr := m.transpose
    let cf := matrix4Cofactor tr invDet
    some ⟨⟨cf 0 0, cf 0 1, cf 0 2, cf 0 3⟩,
          ⟨cf 1 0, cf 1 1, cf 1 2, cf 1 3⟩,
          ⟨cf 2 0, cf 2 1, cf 2 2, cf 2 3⟩,
          ⟨cf 3 0, cf 3 1, cf 3 2, cf 3 3⟩⟩

/-- Builtin convenience `inverse` for `Matrix2` (src/builtin/matrix.rs):
the `panic!` on a singular matrix is modelled as `Except.error` carrying
the panic diagnostic. -/
def Matrix2.inverseBuiltin (eps : ℚ) (m : Matrix2 ℚ) : Except String (Matrix2 ℚ) :=
  match m.inverse eps with
  | some im => Except.ok im
  | none => Except.error "inverse a matrix that is not invertible."

/-- Builtin convenience `inverse` for `Matrix3` (src/builtin/matrix.rs). -/
def Matrix3.inverseBuiltin (eps : ℚ) (m : Matrix3 ℚ) : Except String (Matrix3 ℚ) :=
  match m.inverse eps with
  | some im => Except.ok im
  | none => Except.error "inverse a matrix that is not invertible."

/-- Builtin convenience `inverse` for `Matrix4` (src/builtin/matrix.rs). -/
def Matrix4.inverseBuiltin (eps : ℚ) (m : Matrix4 ℚ) : Except String (Matrix4 ℚ) :=
  match m.inverse eps with
  | some im => Except.ok im
  | none => Except.error "inverse a matrix that is not invertible."

/-- Model of the Rust cast `f32 as u8` applied to the whole non-negative
values produced by `round` in the pack functions: truncation toward zero
saturated to the byte range. -/
def ratToU8 (q : ℚ) : ℕ := min 255 (truncQ q).toNat

/-- Rational value of the literal `0.0039215686274509803921568627451`
by which `unpackUnorm4x8` multiplies (the source comment notes it stands
for `v / 255`). -/
def unorm8Scale : ℚ := 0.0039215686274509803921568627451

/-- Model of `packUnorm4x8` (src/builtin/pack.rs):
`round(clamp_s(v, 0, 1) * 255)` per component, components cast to bytes
and packed little-endian as `[w, z, y, x]`, so `x` lands in the most
significant byte. -/
def packUnorm4x8 (v : Vector4 ℚ) : ℕ :=
  let us := roundV4 ((clampS4 v 0 1).mulS 255)
  ratToU8 us.w + 256 * ratToU8 us.z + 65536 * ratToU8 us.y + 16777216 * ratToU8 us.x

/-- Model of `unpackUnorm4x8` (src/builtin/pack.rs): the four
little-endian bytes of `p` are placed as `vec4(b3, b2, b1, b0)` and
multiplied by `unorm8Scale`. -/
def unpackUnorm4x8 (p : ℕ) : Vector4 ℚ :=
  let b0 := p % 256
  let b1 := p / 256 % 256
  let b2 := p / 65536 % 256
  let b3 := p / 16777216 % 256
  (vec4 (b3 : ℚ) (b2 : ℚ) (b1 : ℚ) (b0 : ℚ)).mulS unorm8Scale

/-- Model of the builtin `length` (src/builtin/geom.rs):
`dot(x, x).sqrt()`, with the float square root kept abstract as the
function parameter `s`. -/
def lengthS (s : ℚ → ℚ) (v : Vector3 ℚ) : ℚ := s (dot3 v v)

/-- Model of the helper `scale_vec` (src/mat/mat.rs):
`v * desired_length / length(v)`. -/
def scaleVec (s : ℚ → ℚ) (v : Vector3 ℚ) (desiredLength : ℚ) : Vector3 ℚ :=
  (v.mulS desiredLength).divS (lengthS s v)

/-- Model of the helper `combine_vec` (src/mat/mat.rs):
`a * a_scale + b * b_scale`. -/
def combineVec (a b : Vector3 ℚ) (aScale bScale : ℚ) : Vector3 ℚ :=
  (a.mulS aScale).add (b.mulS bScale)

/-- Component lookup `v[i]` on `Vector3` for the runtime indices of
`decompose`; only `0`, `1`, `2` are reachable in the source. -/
def Vector3.nth (v : Vector3 ℚ) (i : ℕ) : ℚ :=
  match i with
  | 0 => v.x
  | 1 => v.y
  | _ => v.z

/-- Component update `v[i] = q` on `Vector4` for the runtime indices of
`decompose`; only `0`, `1`, `2` are reachable in the source. -/
def Vector4.setNth (v : Vector4 ℚ) (i : ℕ) (q : ℚ) : Vector4 ℚ :=
  match i with
  | 0 => { v with x := q }
  | 1 => { v with y := q }
  | 2 => { v with z := q }
  | 3 => { v with w := q }
  | _ => v

/-- Successor table `next = [1, 2, 0]` of the quaternion case split in
`decompose`. -/
def nextIdx (i : ℕ) : ℕ :=
  match i with
  | 0 => 1
  | 1 => 2
  | _ => 0

/-- In-place normalization loop of `decompose`: every entry of the matrix
is divided by the current `matrix[3][3]`, which is still the original
value when each entry (including `[3][3]` itself, processed last) is
updated. -/
def Matrix4.normalizeW (m : Matrix4 ℚ) : Matrix4 ℚ :=
  let e := m.c3.w
  ⟨⟨m.c0.x / e, m.c0.y / e, m.c0.z / e, m.c0.w / e⟩,
   ⟨m.c1.x / e, m.c1.y / e, m.c1.z / e, m.c1.w / e⟩,
   ⟨m.c2.x / e, m.c2.y / e, m.c2.z / e, m.c2.w / e⟩,
   ⟨m.c3.x / e, m.c3.y / e, m.c3.z / e, m.c3.w / e⟩⟩

/-- Perspective sub-matrix isolated by `decompose`: the row of `w`
components of the first three columns is zeroed and `[3][3]` is set to
one. -/
def Matrix4.perspectiveMat (m : Matrix4 ℚ) : Matrix4 ℚ :=
  ⟨{ m.c0 with w := 0 }, { m.c1 with w := 0 }, { m.c2 with w := 0 },
   { m.c3 with w := 1 }⟩

/-- Tail of `Matrix4::decompose` after the degeneracy checks and the
perspective isolation (src/mat/mat.rs): Gram-Schmidt style row
orthogonalization extracting scale and skew, the flip correction, and the
quaternion extraction case split on the trace.  `mtx` is the normalized
matrix (perspective partition already cleared when one was isolated) and
`persp` the isolated perspective vector. -/
def decomposeRest (s : ℚ → ℚ) (mtx : Matrix4 ℚ) (persp : Vector4 ℚ) :
    Vector3 ℚ × Vector4 ℚ × Vector3 ℚ × Vector3 ℚ × Vector4 ℚ :=
  let translation : Vector3 ℚ := ⟨mtx.c3.x, mtx.c3.y, mtx.c3.z⟩
  let r0 : Vector3 ℚ := ⟨mtx.c0.x, mtx.c0.y, mtx.c0.z⟩
  let r1 : Vector3 ℚ := ⟨mtx.c1.x, mtx.c1.y, mtx.c1.z⟩
  let r2 : Vector3 ℚ := ⟨mtx.c2.x, mtx.c2.y, mtx.c2.z⟩
  let scaleX := lengthS s r0
  let r0 := scaleVec s r0 1
  let skewZ := dot3 r0 r1
  let r1 := combineVec r1 r0 1 (-skewZ)
  let scaleY := lengthS s r1
  let r1 := scaleVec s r1 1
  let skewZ := skewZ / scaleY
  let skewY := dot3 r0 r2
  let r2 := combineVec r2 r0 1 (-skewY)
  let skewX := dot3 r1 r2
  let r2 := combineVec r2 r1 1 (-skewX)
  let scaleZ := lengthS s r2
  let r2 := scaleVec s r2 1
  let skewY := skewY / scaleZ
  let skewX := skewX / scaleZ
  let pdum3 := cross3 r1 r2
  let flip := dot3 r1 pdum3 < 0
  let scale : Vector3 ℚ :=
    if flip then ⟨scaleX * -1, scaleY * -1, scaleZ * -1⟩ else ⟨scaleX, scaleY, scaleZ⟩
  let r0 := if flip then r0.mulS (-1) else r0
  let r1 := if flip then r1.mulS (-1) else r1
  let r2 := if flip then r2.mulS (-1) else r2
  let trace := r0.x + r1.y + r2.z
  let orientation : Vector4 ℚ :=
    if 0 < trace then
      let root := s (trace + 1)
      let ow := 1 / 2 * root
      let root := 1 / 2 / root
      ⟨root * (r1.z - r2.y), root * (r2.x - r0.z), root * (r0.y - r1.x), ow⟩
    else
      let row : ℕ → Vector3 ℚ := fun i =>
        match i with
        | 0 => r0
        | 1 => r1
        | _ => r2
      let i : ℕ := if r0.x < r1.y then 1 else 0
      let i : ℕ := if (row i).nth i < r2.z then 2 else i
      let j := nextIdx i
      let k := nextIdx j
      let root := s ((row i).nth i - (row j).nth j - (row k).nth k + 1)
      let o := (Vector4.mk 0 0 0 0).setNth i (1 / 2 * root)
      let root := 1 / 2 / root
      let o := o.setNth j (root * ((row i).nth j + (row j).nth i))
      let o := o.setNth k (root * ((row i).nth k + (row k).nth i))
      { o with w := root * ((row j).nth k - (row k).nth j) }
  (scale, orientation, translation, ⟨skewX, skewY, skewZ⟩, persp)

/-- Model of `Matrix4::decompose` (src/mat/mat.rs).  The float square
root is the abstract parameter `s` and the machine epsilon of the float
kind is `eps`.  The two degeneracy checks yield `Except.ok none`; the
panic that the internal call to the builtin `inverse` would raise is
modelled by propagating its `Except.error`. -/
def Matrix4.decompose (s : ℚ → ℚ) (eps : ℚ) (m : Matrix4 ℚ) :
    Except String (Option (Vector3 ℚ × Vector4 ℚ × Vector3 ℚ × Vector3 ℚ × Vector4 ℚ)) :=
  if isApproxEq eps m.c3.w 0 then Except.ok none
  else
    let mtx := m.normalizeW
    let pm := mtx.perspectiveMat
    if isApproxEq eps pm.determinant 0 then Except.ok none
    else if !(isApproxEq eps mtx.c0.w 0 || isApproxEq eps mtx.c1.w 0 ||
              isApproxEq eps mtx.c2.w 0) then
      match pm.inverseBuiltin eps with
      | Except.error e => Except.error e
      | Except.ok ipm =>
        let rhs : Vector4 ℚ := ⟨mtx.c0.w, mtx.c1.w, mtx.c2.w, mtx.c3.w⟩
        let persp := ipm.transpose.mulV rhs
        let cleared : Matrix4 ℚ :=
          ⟨{ mtx.c0 with w := 0 }, { mtx.c1 with w := 0 },
           { mtx.c2 with w := 0 }, { mtx.c3 with w := 1 }⟩
        Except.ok (some (decomposeRest s cleared persp))
    else
      Except.ok (some (decomposeRest s mtx ⟨0, 0, 0, 1⟩))

/-- Unfolding lemma: `is_close_to` on float scalars decides
`|x - y| ≤ maxDiff`. -/
lemma isCloseTo_iff (x y d : ℚ) : isCloseTo x y d = true ↔ |x - y| ≤ d := by
  simp [isCloseTo]

/-- Unfolding lemma: `is_approx_eq` against zero decides `|x| ≤ eps`. -/
lemma isApproxEq_zero_iff (eps x : ℚ) : isApproxEq eps x 0 = true ↔ |x| ≤ eps := by
  simp [isApproxEq, isCloseTo]

/-- The model of `Float::min` agrees with the order-theoretic minimum. -/
lemma fminQ_eq (x y : ℚ) : fminQ x y = min x y := by
  unfold fminQ
  rcases lt_trichotomy x y with h | h | h
  · rw [if_pos h, min_eq_left h.le]
  · subst h; simp
  · rw [if_neg (not_lt.mpr h.le), min_eq_right h.le]

/-- The model of `Float::max` agrees with the order-theoretic maximum. -/
lemma fmaxQ_eq (x y : ℚ) : fmaxQ x y = max x y := by
  unfold fmaxQ
  rcases lt_trichotomy x y with h | h | h
  · rw [if_pos h, max_eq_right h.le]
  · subst h; simp
  · rw [if_neg (not_lt.mpr h.le), max_eq_left h.le]

/-- C1: for each square size, `GenSquareMat::inverse` returns `None`
exactly when the determinant is approximately zero, i.e. its absolute
value is at most the machine epsilon, and `Some` otherwise; in
particular `mat2(1,2,2,4)` (zero determinant) has no inverse at the
`f32` epsilon. -/
theorem inverse_none_iff_det_approx_zero :
    (∀ (eps : ℚ) (m : Matrix2 ℚ),
      Matrix2.inverse eps m = none ↔ |m.determinant| ≤ eps) ∧
    (∀ (eps : ℚ) (m : Matrix3 ℚ),
      Matrix3.inverse eps m = none ↔ |m.determinant| ≤ eps) ∧
    (∀ (eps : ℚ) (m : Matrix4 ℚ),
      Matrix4.inverse eps m = none ↔ |m.determinant| ≤ eps) ∧
    Matrix2.inverse epsilonF32 (mat2 1 2 2 4) = none := by
  have key2 : ∀ (eps : ℚ) (m : Matrix2 ℚ),
      Matrix2.inverse eps m = none ↔ |m.determinant| ≤ eps := by
    intro eps m
    rw [← isApproxEq_zero_iff eps m.determinant]
    by_cases h : isApproxEq eps m.determinant 0 = true
    · simp [Matrix2.inverse, h]
    · simp [Matrix2.inverse, h]
  refine ⟨key2, fun eps m => ?_, fun eps m => ?_, ?_⟩
  · rw [← isApproxEq_zero_iff eps m.determinant]
    by_cases h : isApproxEq eps m.determinant 0 = true
    · simp [Matrix3.inverse, h]
    · simp [Matrix3.inverse, h]
  · rw [← isApproxEq_zero_iff eps m.determinant]
    by_cases h : isApproxEq eps m.determinant 0 = true
    · simp [Matrix4.inverse, h]
    · simp [Matrix4.inverse, h]
  · rw [key2]
    norm_num [Matrix2.determinant, mat2, epsilonF32]

/-- C2: the builtin convenience `inverse` hard-fails (an `Except.error`
carrying the panic diagnostic) exactly when the trait method returns
`None`, and otherwise returns exactly the matrix the trait method wraps
in `Some`. -/
theorem inverse_builtin_fails_iff_trait_none :
    ∀ eps : ℚ,
      (∀ m : Matrix2 ℚ,
        (Matrix2.inverseBuiltin eps m).toOption = Matrix2.inverse eps m ∧
        ((Matrix2.inverseBuiltin eps m).isOk = false ↔ Matrix2.inverse eps m = none)) ∧
      (∀ m : Matrix3 ℚ,
        (Matrix3.inverseBuiltin eps m).toOption = Matrix3.inverse eps m ∧
        ((Matrix3.inverseBuiltin eps m).isOk = false ↔ Matrix3.inverse eps m = none)) ∧
      (∀ m : Matrix4 ℚ,
        (Matrix4.inverseBuiltin eps m).toOption = Matrix4.inverse eps m ∧
        ((Matrix4.inverseBuiltin eps m).isOk = false ↔ Matrix4.inverse eps m = none)) := by
  intro eps
  refine ⟨fun m => ?_, fun m => ?_, fun m => ?_⟩
  · cases h : Matrix2.inverse eps m <;>
      simp [Matrix2.inverseBuiltin, h, Except.toOption, Except.isOk, Except.toBool]
  · cases h : Matrix3.inverse eps m <;>
      simp [Matrix3.inverseBuiltin, h, Except.toOption, Except.isOk, Except.toBool]
  · cases h : Matrix4.inverse eps m <;>
      simp [Matrix4.inverseBuiltin, h, Except.toOption, Except.isOk, Except.toBool]

/-- C3: for each of the nine matrix shapes, transposing twice returns the
original matrix with exact component equality. -/
theorem transpose_transpose_eq :
    ∀ α : Type,
      (∀ m : Matrix2 α, m.transpose.transpose = m) ∧
      (∀ m : Matrix3x2 α, m.transpose.transpose = m) ∧
      (∀ m : Matrix4x2 α, m.transpose.transpose = m) ∧
      (∀ m : Matrix2x3 α, m.transpose.transpose = m) ∧
      (∀ m : Matrix3 α, m.transpose.transpose = m) ∧
      (∀ m : Matrix4x3 α, m.transpose.transpose = m) ∧
      (∀ m : Matrix2x4 α, m.transpose.transpose = m) ∧
      (∀ m : Matrix3x4 α, m.transpose.transpose = m) ∧
      (∀ m : Matrix4 α, m.transpose.transpose = m) := by
  intro α
  exact ⟨fun m => rfl, fun m => rfl, fun m => rfl, fun m => rfl, fun m => rfl,
         fun m => rfl, fun m => rfl, fun m => rfl, fun m => rfl⟩

/-- C4: `clamp` is `min(max(x, lo), hi)`; whenever `lo ≤ hi` the result
lies in `[lo, hi]`, and it equals `x` whenever `lo ≤ x ≤ hi`; on vectors
it acts component-wise. -/
theorem clamp_range_and_identity :
    (∀ x lo hi : ℚ, clampQ x lo hi = fminQ (fmaxQ x lo) hi) ∧
    (∀ x lo hi : ℚ, lo ≤ hi → lo ≤ clampQ x lo hi ∧ clampQ x lo hi ≤ hi) ∧
    (∀ x lo hi : ℚ, lo ≤ x → x ≤ hi → clampQ x lo hi = x) ∧
    (∀ v lo hi : Vector3 ℚ,
      clampV3 v lo hi =
        ⟨clampQ v.x lo.x hi.x, clampQ v.y lo.y hi.y, clampQ v.z lo.z hi.z⟩) := by
  refine ⟨fun x lo hi => rfl, fun x lo hi h => ?_, fun x lo hi h1 h2 => ?_,
          fun v lo hi => rfl⟩
  · unfold clampQ
    rw [fminQ_eq, fmaxQ_eq]
    exact ⟨le_min (le_max_right x lo) h, min_le_right _ _⟩
  · unfold clampQ
    rw [fminQ_eq, fmaxQ_eq, max_eq_left h1, min_eq_left h2]

/-- C4 witness: concrete instances of the clamp range and identity laws. -/
theorem clamp_range_and_identity_witness :
    ((0 : ℚ) ≤ 1 ∧ ((0 : ℚ) ≤ clampQ 5 0 1 ∧ clampQ 5 0 1 ≤ 1)) ∧
    ((0 : ℚ) ≤ 1 / 2 ∧ (1 / 2 : ℚ) ≤ 1 ∧ clampQ (1 / 2) 0 1 = 1 / 2) :=
  ⟨⟨by norm_num, clamp_range_and_identity.2.1 5 0 1 (by norm_num)⟩,
   ⟨by norm_num, by norm_num,
    clamp_range_and_identity.2.2.1 (1 / 2) 0 1 (by norm_num) (by norm_num)⟩⟩

/-- Inverse of a `Matrix4` whose determinant is not approximately zero is
always `some`. -/
lemma inverse4_isSome_of_not_approx (eps : ℚ) (m : Matrix4 ℚ)
    (h : ¬ isApproxEq eps m.determinant 0 = true) :
    ∃ im, Matrix4.inverse eps m = some im := by
  simp [Matrix4.inverse, h]

/-- C5: `Matrix4::decompose` returns `None` exactly when the matrix is
affinely degenerate (bottom-right element approximately zero, or the
isolated perspective sub-matrix of the normalized matrix has
approximately-zero determinant), and never hard-fails: the internal call
to the panicking builtin `inverse` is only reached after the singularity
check has passed, so the result is always an `Except.ok`. -/
theorem decompose_none_iff_degenerate :
    ∀ (s : ℚ → ℚ) (eps : ℚ) (m : Matrix4 ℚ),
      (Matrix4.decompose s eps m = Except.ok none ↔
        (isApproxEq eps m.c3.w 0 = true ∨
         isApproxEq eps m.normalizeW.perspectiveMat.determinant 0 = true)) ∧
      (Matrix4.decompose s eps m).isOk = true := by
  intro s eps m
  by_cases h1 : isApproxEq eps m.c3.w 0 = true
  · constructor
    · simp [Matrix4.decompose, h1]
    · simp [Matrix4.decompose, h1, Except.isOk, Except.toBool]
  · by_cases h2 : isApproxEq eps m.normalizeW.perspectiveMat.determinant 0 = true
    · constructor
      · simp [Matrix4.decompose, h1, h2]
      · simp [Matrix4.decompose, h1, h2, Except.isOk, Except.toBool]
    · obtain ⟨im, him⟩ := inverse4_isSome_of_not_approx eps _ h2
      have hb : Matrix4.inverseBuiltin eps m.normalizeW.perspectiveMat =
          Except.ok im := by
        unfold Matrix4.inverseBuiltin
        rw [him]
      constructor
      · simp only [Matrix4.decompose, h1, h2, if_false, hb]
        by_cases h3 : (!(isApproxEq eps m.normalizeW.c0.w 0 ||
            isApproxEq eps m.normalizeW.c1.w 0 ||
            isApproxEq eps m.normalizeW.c2.w 0)) = true
        · simp [h3, h1, h2]
        · simp [h3, h1, h2]
      · simp only [Matrix4.decompose, h1, h2, if_false, hb]
        by_cases h3 : (!(isApproxEq eps m.normalizeW.c0.w 0 ||
            isApproxEq eps m.normalizeW.c1.w 0 ||
            isApproxEq eps m.normalizeW.c2.w 0)) = true
        · simp [h3, Except.isOk, Except.toBool]
        · simp [h3, Except.isOk, Except.toBool]

/-- C6: the tolerance relation `is_close_to` is symmetric, reflexive for
any non-negative tolerance, and not transitive, and `is_approx_eq` is
`is_close_to` at the machine epsilon of the scalar kind. -/
theorem is_close_to_sym_refl_not_trans :
    (∀ a b d : ℚ, isCloseTo a b d = isCloseTo b a d) ∧
    (∀ a d : ℚ, 0 ≤ d → isCloseTo a a d = true) ∧
    (∃ a b c d : ℚ,
      isCloseTo a b d = true ∧ isCloseTo b c d = true ∧ isCloseTo a c d = false) ∧
    (∀ x y : ℚ, isApproxEqF32 x y = isCloseTo x y epsilonF32) ∧
    (∀ x y : ℚ, isApproxEqF64 x y = isCloseTo x y epsilonF64) := by
  refine ⟨fun a b d => ?_, fun a d h => ?_, ⟨0, 1, 2, 1, ?_, ?_, ?_⟩,
          fun x y => rfl, fun x y => rfl⟩
  · simp [isCloseTo, abs_sub_comm]
  · simp [isCloseTo, h]
  · norm_num [isCloseTo]
  · norm_num [isCloseTo]
  · norm_num [isCloseTo]

/-- C6 witness: reflexivity of `is_close_to` at the value `3` and the
tolerance `1`. -/
theorem is_close_to_refl_witness : (0 : ℚ) ≤ 1 ∧ isCloseTo 3 3 1 = true :=
  ⟨by norm_num, is_close_to_sym_refl_not_trans.2.1 3 1 (by norm_num)⟩

/-- C7: `sign` tests exact zero on the original value: it yields `1` for
positive inputs, `0` for (either) zero, `-1` for negative inputs, in
particular `sign(-5) = -1`, and acts component-wise on vectors. -/
theorem sign_glsl_zero_handling :
    (∀ x : ℚ, 0 < x → signQ x = 1) ∧
    (∀ x : ℚ, x < 0 → signQ x = -1) ∧
    signQ 0 = 0 ∧ signQ (-0) = 0 ∧ signQ (-5) = -1 ∧
    (∀ v : Vector3 ℚ, signV3 v = ⟨signQ v.x, signQ v.y, signQ v.z⟩) := by
  refine ⟨fun x h => ?_, fun x h => ?_, by norm_num [signQ], by norm_num [signQ],
          by norm_num [signQ], fun v => rfl⟩
  · rw [signQ, if_neg (ne_of_gt h), if_pos h]
  · rw [signQ, if_neg (ne_of_lt h), if_neg (not_lt.mpr h.le)]

/-- C7 witness: the sign of the positive value `2` and of the negative
value `-3`. -/
theorem sign_witness : ((0 : ℚ) < 2 ∧ signQ 2 = 1) ∧ ((-3 : ℚ) < 0 ∧ signQ (-3) = -1) :=
  ⟨⟨by norm_num, sign_glsl_zero_handling.1 2 (by norm_num)⟩,
   ⟨by norm_num, sign_glsl_zero_handling.2.1 (-3) (by norm_num)⟩⟩

/-- Truncation toward zero is the identity on integer values. -/
lemma truncQ_intCast (n : ℤ) : truncQ (n : ℚ) = n := by
  unfold truncQ
  split
  · exact Int.floor_intCast n
  · exact Int.ceil_intCast n

/-- Truncation toward zero of a half-integer keeps the integer part for
non-negative values and rounds up for negative ones. -/
lemma truncQ_int_add_half (n : ℤ) :
    truncQ ((n : ℚ) + 1 / 2) = if 0 ≤ n then n else n + 1 := by
  unfold truncQ
  by_cases hn : 0 ≤ n
  · have hx : (0 : ℚ) ≤ (n : ℚ) + 1 / 2 := by
      have : (0 : ℚ) ≤ (n : ℚ) := by exact_mod_cast hn
      linarith
    rw [if_pos hx, if_pos hn, add_comm, Int.floor_add_int]
    norm_num
  · have hn' : n ≤ -1 := by omega
    have hx : ¬ (0 : ℚ) ≤ (n : ℚ) + 1 / 2 := by
      have : (n : ℚ) ≤ -1 := by exact_mod_cast hn'
      push_neg
      linarith
    rw [if_neg hx, if_neg hn, add_comm, Int.ceil_add_int]
    have hc : ⌈(1 : ℚ) / 2⌉ = 1 := by
      rw [Int.ceil_eq_iff]
      norm_num
    rw [hc]
    omega

/-- The fractional part of a half-integer has absolute value one half. -/
lemma fractQ_int_add_half (n : ℤ) : |fractQ ((n : ℚ) + 1 / 2)| = 1 / 2 := by
  unfold fractQ
  rw [truncQ_int_add_half]
  by_cases hn : 0 ≤ n
  · rw [if_pos hn]
    have h : (n : ℚ) + 1 / 2 - ((n : ℤ) : ℚ) = 1 / 2 := by ring
    rw [h]
    norm_num
  · rw [if_neg hn]
    have h : (n : ℚ) + 1 / 2 - ((n + 1 : ℤ) : ℚ) = -(1 / 2) := by push_cast; ring
    rw [h, abs_neg]
    norm_num

/-- The float remainder of an integer value by two vanishes exactly on the
even integers. -/
lemma fmodQ_intCast_two (k : ℤ) : fmodQ (k : ℚ) 2 = 0 ↔ k % 2 = 0 := by
  unfold fmodQ
  obtain ⟨q, hq | hq⟩ := Int.even_or_odd' k
  · subst hq
    have h2 : ((2 * q : ℤ) : ℚ) / 2 = (q : ℚ) := by push_cast; ring
    rw [h2, truncQ_intCast]
    have hl : ((2 * q : ℤ) : ℚ) - (q : ℚ) * 2 = 0 := by push_cast; ring
    exact ⟨fun _ => by omega, fun _ => hl⟩
  · subst hq
    have h2 : ((2 * q + 1 : ℤ) : ℚ) / 2 = (q : ℚ) + 1 / 2 := by push_cast; ring
    rw [h2, truncQ_int_add_half]
    by_cases hqn : 0 ≤ q
    · rw [if_pos hqn]
      have hl : ((2 * q + 1 : ℤ) : ℚ) - (q : ℚ) * 2 = 1 := by push_cast; ring
      constructor
      · intro hcon
        rw [hl] at hcon
        norm_num at hcon
      · intro hcon
        exact absurd hcon (by omega)
    · rw [if_neg hqn]
      have hl : ((2 * q + 1 : ℤ) : ℚ) - ((q + 1 : ℤ) : ℚ) * 2 = -1 := by push_cast; ring
      constructor
      · intro hcon
        rw [hl] at hcon
        norm_num at hcon
      · intro hcon
        exact absurd hcon (by omega)

/-- The scalar `roundEven` kernel maps the half-integer `n + 1/2` to the
even member of the pair `{n, n + 1}`. -/
lemma roundEvenQ_tie (n : ℤ) :
    roundEvenQ ((n : ℚ) + 1 / 2) = ((if n % 2 = 0 then n else n + 1 : ℤ) : ℚ) := by
  have hfr := fractQ_int_add_half n
  have htr := truncQ_int_add_half n
  simp only [roundEvenQ, htr, hfr]
  rw [if_neg (by simp)]
  by_cases hn : 0 ≤ n
  · rw [if_pos hn]
    by_cases hp : n % 2 = 0
    · rw [if_pos ((fmodQ_intCast_two n).mpr hp), if_pos hp]
    · rw [if_neg (fun hc => hp ((fmodQ_intCast_two n).mp hc)), if_neg hp]
      have hnn : ¬ ((n : ℤ) : ℚ) < 0 := by
        push_neg
        exact_mod_cast hn
      rw [if_neg hnn]
      push_cast
      ring
  · rw [if_neg hn]
    by_cases hp : n % 2 = 0
    · have hodd : ¬ (n + 1) % 2 = 0 := by omega
      rw [if_neg (fun hc => hodd ((fmodQ_intCast_two (n + 1)).mp hc)), if_pos hp]
      have hneg : ((n + 1 : ℤ) : ℚ) < 0 := by
        have h1 : n + 1 < 0 := by omega
        exact_mod_cast h1
      rw [if_pos hneg]
      push_cast
      ring
    · have heven : (n + 1) % 2 = 0 := by omega
      rw [if_pos ((fmodQ_intCast_two (n + 1)).mpr heven), if_neg hp]

/-- C8: `roundEven` sends a fractional part of exactly `0.5` to the
nearest even integer — on a half-integer `n + 1/2` it returns the even
member of `{n, n + 1}` — with the concrete values `roundEven(2.5) = 2`,
`roundEven(1.5) = 2`, `roundEven(-2.5) = -2`, and acts component-wise on
vectors. -/
theorem roundEven_ties_to_even :
    roundEvenQ (5 / 2) = 2 ∧ roundEvenQ (3 / 2) = 2 ∧ roundEvenQ (-(5 / 2)) = -2 ∧
    (∀ n : ℤ, roundEvenQ ((n : ℚ) + 1 / 2) = ((if n % 2 = 0 then n else n + 1 : ℤ) : ℚ)) ∧
    (∀ v : Vector3 ℚ, roundEvenV3 v = ⟨roundEvenQ v.x, roundEvenQ v.y, roundEvenQ v.z⟩) := by
  refine ⟨?_, ?_, ?_, roundEvenQ_tie, fun v => rfl⟩
  · have h : (5 / 2 : ℚ) = ((2 : ℤ) : ℚ) + 1 / 2 := by norm_num
    rw [h, roundEvenQ_tie]
    norm_num
  · have h : (3 / 2 : ℚ) = ((1 : ℤ) : ℚ) + 1 / 2 := by norm_num
    rw [h, roundEvenQ_tie]
    norm_num
  · have h : (-(5 / 2) : ℚ) = ((-3 : ℤ) : ℚ) + 1 / 2 := by norm_num
    rw [h, roundEvenQ_tie]
    norm_num

/-- The byte cast model is the identity on natural values below 256. -/
lemma ratToU8_natCast (b : ℕ) (hb : b < 256) : ratToU8 ((b : ℚ)) = b := by
  unfold ratToU8 truncQ
  rw [if_pos (by positivity), Int.floor_natCast, Int.toNat_natCast]
  omega

/-- Full unorm8 conversion round trip on one byte: converting `b` to
`b * unorm8Scale`, clamping to `[0, 1]`, scaling by 255, rounding, and
casting back to a byte recovers `b`. -/
lemma unorm_byte_id (b : ℕ) (hb : b < 256) :
    ratToU8 (roundRustQ (fminQ (fmaxQ ((b : ℚ) * unorm8Scale) 0) 1 * 255)) = b := by
  have hc : unorm8Scale = 39215686274509803921568627451 / 10 ^ 31 := by
    norm_num [unorm8Scale]
  have hcpos : (0 : ℚ) < unorm8Scale := by
    rw [hc]
    norm_num
  have h0 : (0 : ℚ) ≤ (b : ℚ) * unorm8Scale := by positivity
  rw [fmaxQ, if_neg (not_lt.mpr h0)]
  by_cases hb' : b ≤ 254
  · have hb254 : (b : ℚ) ≤ 254 := by exact_mod_cast hb'
    have hblt : (b : ℚ) * unorm8Scale < 1 := by
      have hm : (b : ℚ) * unorm8Scale ≤ 254 * unorm8Scale :=
        mul_le_mul_of_nonneg_right hb254 hcpos.le
      have h254 : (254 : ℚ) * unorm8Scale < 1 := by
        rw [hc]
        norm_num
      linarith
    rw [fminQ, if_pos hblt]
    have hx0 : (0 : ℚ) ≤ (b : ℚ) * unorm8Scale * 255 := by positivity
    rw [roundRustQ, if_pos hx0]
    have hfloor : ⌊(b : ℚ) * unorm8Scale * 255 + 1 / 2⌋ = (b : ℤ) := by
      rw [Int.floor_eq_iff]
      constructor
      · have hone : (1 : ℚ) ≤ unorm8Scale * 255 := by
          rw [hc]
          norm_num
        have hbnn : (0 : ℚ) ≤ (b : ℚ) := by positivity
        push_cast
        nlinarith
      · have hd : unorm8Scale * 255 = 1 + 1 / (2 * 10 ^ 30) := by
          rw [hc]
          norm_num
        push_cast
        nlinarith
    rw [hfloor]
    exact ratToU8_natCast b hb
  · have hb255 : b = 255 := by omega
    subst hb255
    have hge : ¬ ((255 : ℕ) : ℚ) * unorm8Scale < 1 := by
      push_cast
      rw [hc]
      norm_num
    rw [fminQ, if_neg hge]
    have h1 : (1 : ℚ) * 255 = 255 := by norm_num
    rw [h1, roundRustQ, if_pos (by norm_num)]
    have hf : ⌊(255 : ℚ) + 1 / 2⌋ = 255 := by norm_num
    rw [hf]
    have hcast : ((255 : ℤ) : ℚ) = ((255 : ℕ) : ℚ) := by push_cast; ring
    rw [hcast]
    exact ratToU8_natCast 255 (by omega)

/-- C9: `packUnorm4x8` is a left inverse of `unpackUnorm4x8` on every
32-bit value: unpacking the four bytes to normalized floats and packing
them back (clamp, scale by 255, round, byte cast) reproduces the exact
bit pattern. -/
theorem packUnorm4x8_unpackUnorm4x8_roundtrip :
    ∀ p : ℕ, p < 2 ^ 32 → packUnorm4x8 (unpackUnorm4x8 p) = p := by
  intro p hp
  have hb0 : p % 256 < 256 := Nat.mod_lt _ (by norm_num)
  have hb1 : p / 256 % 256 < 256 := Nat.mod_lt _ (by norm_num)
  have hb2 : p / 65536 % 256 < 256 := Nat.mod_lt _ (by norm_num)
  have hb3 : p / 16777216 % 256 < 256 := Nat.mod_lt _ (by norm_num)
  have h0 := unorm_byte_id _ hb0
  have h1 := unorm_byte_id _ hb1
  have h2 := unorm_byte_id _ hb2
  have h3 := unorm_byte_id _ hb3
  simp only [packUnorm4x8, unpackUnorm4x8, vec4, Vector4.mulS, clampS4, minS4, maxS4,
    Vector4.map, roundV4]
  rw [h0, h1, h2, h3]
  omega

/-- C9 witness: the round trip at the concrete bit pattern `0x12345678`. -/
theorem packUnorm4x8_roundtrip_witness :
    (305419896 : ℕ) < 2 ^ 32 ∧ packUnorm4x8 (unpackUnorm4x8 305419896) = 305419896 :=
  ⟨by norm_num, packUnorm4x8_unpackUnorm4x8_roundtrip 305419896 (by norm_num)⟩

/-- C10: the concrete evaluations of the spec scenario hold exactly:
`determinant(mat2(4,5,6,7)) = -2`, `mat3x2(1,2,3,4,5,6) * vec3(-2,0,2) =
vec2(8,8)`, `dot(vec2(1,2), vec2(3,4)) = 11`, `cross(vec3(1,0,0),
vec3(0,1,0)) = vec3(0,0,1)`, and `mix(0,1,1/2) = 1/2`. -/
theorem concrete_evaluations :
    Matrix2.determinant (mat2 4 5 6 7) = -2 ∧
    Matrix3x2.mulV (mat3x2 1 2 3 4 5 6) (vec3 (-2) 0 2) = vec2 8 8 ∧
    dot2 (vec2 1 2) (vec2 3 4) = 11 ∧
    cross3 (vec3 1 0 0) (vec3 0 1 0) = vec3 0 0 1 ∧
    mixQ 0 1 (1 / 2) = 1 / 2 := by
  refine ⟨?_, ?_, ?_, ?_, ?_⟩
  · norm_num [Matrix2.determinant, mat2]
  · norm_num [Matrix3x2.mulV, mat3x2, vec3, vec2]
  · norm_num [dot2, Vector2.mulC, Vector2.sum, vec2]
  · norm_num [cross3, vec3]
  · norm_num [mixQ]

end Glm
